import Mathlib

/-!
Verification of the julis-kalender event-approval system.

This file gives a shallow embedding of the multi-tenant event approval
workflow: the tenant data model and helpers from
`src/frontend/src/types/tenant.ts` and
`src/frontend/src/lib/hooks/useTenant.tsx`, the tenant-context header
helpers and the API error-message extractor from
`src/frontend/src/lib/api/auth.ts`, the slug generator from
`src/frontend/src/app/admin/events/page.tsx`, and — since the backend
workflow engine itself is not part of the frontend sources — a model of
the visibility policy, event state machine, bulk coordinator and
compare-and-set transition built from the design documentation
(spec sections 4.1–4.4, 5 and the visibility table in the embed README).
-/

namespace JulisKalender

/-! ## Tenant data model (src/frontend/src/types/tenant.ts) -/

/-- Tenant hierarchy levels: `'bundesverband' | 'landesverband' | 'bezirksverband'`
(federal / state / district). -/
inductive TenantLevel where
  | bundesverband
  | landesverband
  | bezirksverband
deriving DecidableEq, Repr

/-- Embedding of the `Tenant` interface (the fields the policy logic uses). -/
structure Tenant where
  id : Nat
  slug : String
  level : TenantLevel
  parent_id : Option Nat
  is_active : Bool
deriving DecidableEq, Repr

/-- Embedding of the `TenantPublic` interface (fields used by `useTenant`). -/
structure TenantPublic where
  id : Nat
  slug : String
  level : TenantLevel
  parent_id : Option Nat
deriving DecidableEq, Repr

/-- Embedding of `canSeeAllTenants` from `src/frontend/src/types/tenant.ts`:
`return level === 'bundesverband';`. -/
def canSeeAllTenants (level : TenantLevel) : Bool :=
  match level with
  | .bundesverband => true
  | _ => false

/-- Embedding of the `canSeeAllTenants` context value computed in
`src/frontend/src/lib/hooks/useTenant.tsx` line 118:
`currentTenant?.level === 'bundesverband' || currentTenant === null`. -/
def canSeeAllTenantsCtx (currentTenant : Option TenantPublic) : Bool :=
  match currentTenant with
  | none => true
  | some t => canSeeAllTenants t.level

/-! ## Tenant context header helpers (src/frontend/src/lib/api/auth.ts 452-472)

The mutable state is the value of the `X-Tenant-Slug` default header on the
axios client; `none` models the header being absent. -/

/-- Embedding of `setTenantContext(slug)`: `if (slug)` (JavaScript truthiness,
so both `null` and the empty string take the delete branch) sets the header
to `slug`, otherwise deletes it. Returns the new header state. -/
def setTenantContext (slug : Option String) (_headers : Option String) : Option String :=
  match slug with
  | some s => if s = "" then none else some s
  | none => none

/-- Embedding of `getTenantContext()`:
`apiClient.defaults.headers.common['X-Tenant-Slug'] as string | null || null` —
an absent header yields `null`, and `|| null` also maps an empty-string
header value to `null`. -/
def getTenantContext (headers : Option String) : Option String :=
  match headers with
  | some s => if s = "" then none else some s
  | none => none

/-- Embedding of `clearTenantContext()`: deletes the header. -/
def clearTenantContext (_headers : Option String) : Option String :=
  none

/-! ## Tenant hierarchy queries

Modelled from the spec: the backend `TenantHierarchy` component (spec section
4.1) is not among the frontend sources, so its operations are modelled from
the spec's words. The hierarchy is an arena of tenant records looked up by
id, with the parent stored as an id (spec section 9). -/

/-- Look up a tenant record by id in the tenant arena. -/
def findTenant (ts : List Tenant) (i : Nat) : Option Tenant :=
  ts.find? (fun t => t.id == i)

/-- Modelled from the spec: `isDescendantOf(candidate, ancestor)` (section
4.1). A tenant is a descendant of itself; otherwise follow the parent chain,
which must terminate at the federal root within `levelCount` (three) hops. -/
def isDescendantOfGo (ts : List Tenant) (ancestor : Nat) : Nat → Nat → Bool
  | 0, _ => false
  | fuel + 1, c =>
    c == ancestor ||
      match findTenant ts c with
      | some t =>
        match t.parent_id with
        | some p => isDescendantOfGo ts ancestor fuel p
        | none => false
      | none => false

/-- Modelled from the spec: `isDescendantOf(candidate, ancestor) -> bool`
(section 4.1), with fuel `levelCount = 3`. -/
def isDescendantOf (ts : List Tenant) (candidate ancestor : Nat) : Bool :=
  isDescendantOfGo ts ancestor 3 candidate

/-- Modelled from the spec: `canSeeAll(tenant) -> bool`, true iff the
tenant's level is federal or the tenant reference is nil (section 4.1),
applied to an actor's (nullable) home-tenant id. -/
def canSeeAllHome (ts : List Tenant) (home : Option Nat) : Bool :=
  match home with
  | none => true
  | some h =>
    match findTenant ts h with
    | some t => canSeeAllTenants t.level
    | none => false

/-! ## Visibility policy

Modelled from the spec: the backend `VisibilityPolicy` component (spec
section 4.2) is not among the frontend sources; rules are taken from the
spec's ordered rule list and the role table of section 3, matching the
visibility table in the embed README (`src/unnamed/part_016`). -/

/-- Actor roles: `admin`, `editor`, `member` (spec section 3; the frontend
`UserRole` names the third role `'user'`). -/
inductive Role where
  | admin
  | editor
  | member
deriving DecidableEq, Repr

/-- An actor derived from a user: id, role, nullable home tenant id. -/
structure Actor where
  id : Nat
  role : Role
  homeTenant : Option Nat
deriving DecidableEq, Repr

/-- Actions gated by the visibility policy (spec sections 4.2 and 4.3). -/
inductive Action where
  | submit
  | approve
  | reject
  | edit
  | delete
  | manageUsers
deriving DecidableEq, Repr

/-- Policy decision: `Allow | Deny(reason)` (spec section 4.2). -/
inductive Decision where
  | Allow
  | Deny (reason : String)
deriving DecidableEq, Repr

/-- True exactly on `Allow`. -/
def Decision.allowed : Decision → Bool
  | .Allow => true
  | .Deny _ => false

/-- Modelled from the spec: the role-capability table of section 3 — admin
may manage users and workflow, editor workflow but not users, member only
submit/edit/delete (of their own events; ownership is checked separately by
the workflow operations). -/
def roleCapable (r : Role) (a : Action) : Bool :=
  match r, a with
  | .admin, _ => true
  | .editor, .manageUsers => false
  | .editor, _ => true
  | .member, .submit => true
  | .member, .edit => true
  | .member, .delete => true
  | .member, _ => false

/-- True for the workflow actions (everything except user management). -/
def Action.isWorkflow : Action → Bool
  | .manageUsers => false
  | _ => true

/-- Modelled from the spec: `canAct(actor, targetTenant, action)` evaluating
the four rules of section 4.2 in order: (1) a federal admin is allowed
everything; (2) at the actor's own tenant, role capability decides; (3) on a
descendant tenant, workflow actions are allowed and user management is
denied; (4) otherwise deny out-of-scope. -/
def canAct (ts : List Tenant) (actor : Actor) (target : Nat) (a : Action) : Decision :=
  if actor.role == Role.admin && canSeeAllHome ts actor.homeTenant then .Allow
  else
    match actor.homeTenant with
    | none => .Deny "out-of-scope"
    | some h =>
      if target == h then
        (if roleCapable actor.role a then .Allow else .Deny "role")
      else if isDescendantOf ts target h then
        (if a.isWorkflow then .Allow else .Deny "out-of-scope")
      else .Deny "out-of-scope"

/-! ## Event state machine

The `EventStatus` union and the `Event` interface fields relevant to the
workflow come from `src/unnamed/part_006` (`src/frontend/src/types/event.ts`):
`status`, `rejection_reason`, `approved_by`, `approved_at`, `submitter_id`.
The transitions themselves (spec section 4.3) are modelled from the spec
because the backend is not among the frontend sources. Timestamps are
abstract `Nat` ticks. -/

/-- Embedding of `EventStatus = 'pending' | 'approved' | 'rejected'`. -/
inductive EventStatus where
  | pending
  | approved
  | rejected
deriving DecidableEq, Repr

/-- Workflow-relevant fields of the `Event` interface: the owning tenant id,
the submitter id, the approval status, the rejection reason (the interface's
nullable string, with the empty string standing for null/absent), and the
nullable approver id / approval timestamp. -/
structure Event where
  id : Nat
  tenant : Nat
  submitter_id : Nat
  status : EventStatus
  rejection_reason : String
  approved_by : Option Nat
  approved_at : Option Nat
  title : String
deriving DecidableEq, Repr

/-- Error taxonomy of spec section 7 (the variants the workflow operations
produce). -/
inductive WorkflowError where
  | NotFound
  | Forbidden
  | InvalidTransition (current : EventStatus)
  | ValidationError
deriving DecidableEq, Repr

/-- Modelled from the spec: the event record invariant (spec section 3) —
rejection reason non-empty iff rejected, approver and approval timestamp set
iff approved. -/
def eventInvariant (e : Event) : Prop :=
  ((e.status = EventStatus.rejected) ↔ e.rejection_reason ≠ "") ∧
  ((e.status = EventStatus.approved) ↔ (e.approved_by.isSome ∧ e.approved_at.isSome))

instance (e : Event) : Decidable (eventInvariant e) := by
  unfold eventInvariant; infer_instance

/-- Modelled from the spec: `submit()` (section 4.3) creates an event in
`pending` with the owning tenant fixed to the submitter's home tenant, no
rejection reason and no approval data. -/
def submit (eid : Nat) (submitterId : Nat) (homeTenant : Nat) (title : String) : Event :=
  { id := eid
    tenant := homeTenant
    submitter_id := submitterId
    status := .pending
    rejection_reason := ""
    approved_by := none
    approved_at := none
    title := title }

/-- Modelled from the spec: `approve(actor, event)` (section 4.3). Visibility
is checked first; a `pending` event transitions to `approved` with approver
and timestamp set; re-approving an `approved` event is an idempotent no-op
success; approving a `rejected` event is `InvalidTransition`. -/
def approve (ts : List Tenant) (actor : Actor) (now : Nat) (e : Event) :
    Except WorkflowError Event :=
  if (canAct ts actor e.tenant .approve).allowed then
    match e.status with
    | .pending =>
      .ok { e with status := .approved, approved_by := some actor.id, approved_at := some now }
    | .approved => .ok e
    | .rejected => .error (.InvalidTransition .rejected)
  else .error .Forbidden

/-- Embedding of the JavaScript `String.prototype.trim` used by
`handleRejectSubmit` (`rejectionReason.trim()`): strip leading and trailing
whitespace. -/
def strTrim (s : String) : String :=
  String.mk (((s.data.dropWhile Char.isWhitespace).reverse.dropWhile Char.isWhitespace).reverse)

/-- Modelled from the spec: `reject(actor, event, reason)` (section 4.3).
A reason that is empty after trimming is a `ValidationError` before anything
else (the admin page's `handleRejectSubmit` performs this trim check up
front); then the visibility check; a `pending` event transitions to
`rejected` with the reason stored and approver/timestamp cleared; any other
status is `InvalidTransition`. -/
def reject (ts : List Tenant) (actor : Actor) (e : Event) (reason : String) :
    Except WorkflowError Event :=
  if strTrim reason = "" then .error .ValidationError
  else if (canAct ts actor e.tenant .reject).allowed then
    match e.status with
    | .pending =>
      .ok { e with status := .rejected, rejection_reason := reason,
                   approved_by := none, approved_at := none }
    | s => .error (.InvalidTransition s)
  else .error .Forbidden

/-- Content changes an edit may apply (title stands in for the mutable
content fields; status, reason, approvals and tenant are never part of an
edit). -/
structure EventChanges where
  title : Option String
deriving Repr

/-- Modelled from the spec: `edit(actor, event, changes)` (section 4.3) —
legal only while `pending`, for the original submitter or an in-scope
reviewer; only content fields change. -/
def editEvent (ts : List Tenant) (actor : Actor) (e : Event) (c : EventChanges) :
    Except WorkflowError Event :=
  match e.status with
  | .pending =>
    if actor.id == e.submitter_id || (canAct ts actor e.tenant .edit).allowed then
      .ok { e with title := c.title.getD e.title }
    else .error .Forbidden
  | s => .error (.InvalidTransition s)

/-- Modelled from the spec: `delete(actor, event)` over an event store
(section 4.3) — allowed in any status for the original submitter or an
in-scope reviewer; removes the event from the store. -/
def deleteEvent (ts : List Tenant) (actor : Actor) (st : List Event) (i : Nat) :
    Except WorkflowError (List Event) :=
  match st.find? (fun e => e.id == i) with
  | none => .error .NotFound
  | some e =>
    if actor.id == e.submitter_id || (canAct ts actor e.tenant .delete).allowed then
      .ok (st.filter (fun x => x.id != i))
    else .error .Forbidden

/-! ## Optimistic compare-and-set transition

Modelled from the spec: section 5 — a transition statement updates the
event's status only if the stored status still equals the expected prior
state (`pending`); a caller whose update matches zero rows reports
`InvalidTransition`. The two possible winning transitions are approve and
reject. -/

/-- A requested status transition: approve (with approver and timestamp) or
reject (with a reason). -/
inductive Transition where
  | tapprove (approver : Nat) (time : Nat)
  | treject (reason : String)
deriving DecidableEq, Repr

/-- Field updates a transition applies when it wins. -/
def applyTransition (t : Transition) (e : Event) : Event :=
  match t with
  | .tapprove a time =>
    { e with status := .approved, approved_by := some a, approved_at := some time }
  | .treject reason =>
    { e with status := .rejected, rejection_reason := reason,
             approved_by := none, approved_at := none }

/-- Modelled from the spec: the atomic conditional update of section 5 —
apply the transition only if the stored status is still `pending`, otherwise
leave the row untouched and report `InvalidTransition`. -/
def casStep (t : Transition) (e : Event) : Event × Except WorkflowError Unit :=
  if e.status == EventStatus.pending then (applyTransition t e, .ok ())
  else (e, .error (.InvalidTransition e.status))

/-! ## Bulk operation coordinator

Modelled from the spec: section 4.4 — ids are processed independently, each
through the per-item compare-and-set of section 5 (so in the bulk path only
a found, in-scope, still-`pending` id counts as a success); the coordinator
returns the count of successes against the total submitted. The frontend's
`bulkApproveEvents` (`src/frontend/src/lib/api/auth.ts` 208-213) fixes the
result shape `{approved, total}`. -/

/-- Result shape of `bulkApproveEvents`. -/
structure BulkResult where
  approved : Nat
  total : Nat
deriving DecidableEq, Repr

/-- The approve field update keyed by the acting approver and the clock. -/
def setApproved (approverId now : Nat) (x : Event) : Event :=
  { x with status := .approved, approved_by := some approverId, approved_at := some now }

/-- Whether a single id would succeed in the bulk-approve path: it resolves
to an event that the actor may act on and that is still `pending`. -/
def validPendingInScope (ts : List Tenant) (actor : Actor) (st : List Event) (i : Nat) : Bool :=
  match st.find? (fun e => e.id == i) with
  | none => false
  | some e => (canAct ts actor e.tenant .approve).allowed && (e.status == EventStatus.pending)

/-- Modelled from the spec: one bulk-approve item — look the id up, check
visibility, and run the compare-and-set (update only the still-`pending`
row). Returns the new store and whether the item succeeded; a failing item
leaves the store untouched. -/
def approveOneCas (ts : List Tenant) (actor : Actor) (now : Nat) (st : List Event) (i : Nat) :
    List Event × Bool :=
  if validPendingInScope ts actor st i then
    (st.map (fun x => if x.id == i then setApproved actor.id now x else x), true)
  else (st, false)

/-- Fold of `approveOneCas` over the submitted ids, counting successes. -/
def bulkApproveGo (ts : List Tenant) (actor : Actor) (now : Nat) :
    List Event → List Nat → List Event × Nat
  | st, [] => (st, 0)
  | st, i :: rest =>
    let step := approveOneCas ts actor now st i
    let next := bulkApproveGo ts actor now step.1 rest
    (next.1, (if step.2 then 1 else 0) + next.2)

/-- Modelled from the spec: `bulkApprove(actor, ids)` (section 4.4) — each
id processed independently, result `{approved: successes, total: ids.length}`. -/
def bulkApprove (ts : List Tenant) (actor : Actor) (now : Nat) (st : List Event)
    (ids : List Nat) : List Event × BulkResult :=
  let r := bulkApproveGo ts actor now st ids
  (r.1, { approved := r.2, total := ids.length })

/-! ## Slug generation (src/frontend/src/app/admin/events/page.tsx 553-562)

The `generateSlug` helper of the tenant admin page lowers the name, expands
German umlauts, collapses every run of characters outside `[a-z0-9]` to a
single hyphen (`replace(/[^a-z0-9]+/g, '-')`) and strips leading and
trailing hyphens (`replace(/^-+|-+$/g, '')`). The embedding works on
character lists; `Char.toLower` stands in for the JavaScript `toLowerCase`
(the shape properties proved below do not depend on the case mapping, since
every character outside `[a-z0-9]` is collapsed regardless). -/

/-- Character class `[a-z0-9]` of the slug regexes. -/
def isLowerAlnum (c : Char) : Bool :=
  ('a' ≤ c && c ≤ 'z') || ('0' ≤ c && c ≤ '9')

/-- The chained single-character replaces `ä→ae`, `ö→oe`, `ü→ue`, `ß→ss`
expressed per character (the replacements introduce no umlauts, so the
sequential global replaces equal one pass). -/
def umlautExpand (c : Char) : List Char :=
  if c = 'ä' then ['a', 'e']
  else if c = 'ö' then ['o', 'e']
  else if c = 'ü' then ['u', 'e']
  else if c = 'ß' then ['s', 's']
  else [c]

/-- Worker for the run-collapsing replace. The flag records whether the scan
is inside a run of characters outside `[a-z0-9]` whose hyphen has already
been emitted. -/
def squashGo : Bool → List Char → List Char
  | _, [] => []
  | inRun, c :: cs =>
    if isLowerAlnum c then c :: squashGo false cs
    else if inRun then squashGo true cs
    else '-' :: squashGo true cs

/-- Embedding of `replace(/[^a-z0-9]+/g, '-')`: each maximal run of
characters outside `[a-z0-9]` becomes one hyphen. -/
def squashRuns (l : List Char) : List Char :=
  squashGo false l

/-- Removal of the trailing hyphen run (`-+$`). -/
def dropTrailingHyphens : List Char → List Char
  | [] => []
  | c :: rest =>
    match dropTrailingHyphens rest with
    | [] => if c = '-' then [] else [c]
    | r => c :: r

/-- Embedding of `replace(/^-+|-+$/g, '')`: strip the leading and the
trailing hyphen run. -/
def trimHyphens (l : List Char) : List Char :=
  dropTrailingHyphens (l.dropWhile (fun c => c == '-'))

/-- Embedding of `generateSlug` from the tenant admin page. -/
def generateSlug (name : String) : String :=
  String.mk (trimHyphens (squashRuns ((name.data.map Char.toLower).flatMap umlautExpand)))

/-- Boolean form of "no two consecutive hyphens". -/
def noDoubleHyphen : List Char → Bool
  | a :: b :: rest => !(a == '-' && b == '-') && noDoubleHyphen (b :: rest)
  | _ => true

/-! ## API error message extraction (src/frontend/src/lib/api/auth.ts 486-499)

The input of `getApiErrorMessage` is `unknown`; the embedding captures the
shapes the function distinguishes: a null / non-object value, or an
axios-error-like object whose optional `response` carries an optional
`data.detail` (a string, or a list of validation items whose `msg` field may
or may not be a string) and an optional numeric `status`. -/

/-- Shape of `response.data.detail`: a string, or a validation-error list
(each item reduced to its `msg` field when that is a string). -/
inductive ApiDetail where
  | strDetail (s : String)
  | listDetail (items : List (Option String))
deriving DecidableEq, Repr

/-- Shape of `error.response`: optional `data.detail` and optional numeric
`status` (`none` also covers the falsy status 0, which the code treats like
an absent status). -/
structure ApiResponse where
  detail : Option ApiDetail
  status : Option Nat
deriving DecidableEq, Repr

/-- Input shapes of `getApiErrorMessage`. -/
inductive ApiErrorInput where
  | nonObject
  | obj (response : Option ApiResponse)
deriving DecidableEq, Repr

/-- The generic fallback message. -/
def fallbackMessage : String := "Ein Fehler ist aufgetreten."

/-- The fixed messages keyed on the HTTP status, as in the tail of
`getApiErrorMessage`: 429 first, then every status of at least 500. -/
def statusMessage (status : Option Nat) : String :=
  match status with
  | some s =>
    if s = 429 then "Zu viele Anfragen. Bitte kurz warten."
    else if s ≥ 500 then "Serverfehler. Bitte später erneut versuchen."
    else fallbackMessage
  | none => fallbackMessage

/-- Embedding of `getApiErrorMessage`: null / non-objects get the fallback;
a string `detail` is returned verbatim; a non-empty validation list whose
first item has a string `msg` returns that `msg`; everything else falls
through to the status-based messages. -/
def getApiErrorMessage (e : ApiErrorInput) : String :=
  match e with
  | .nonObject => fallbackMessage
  | .obj response =>
    let detail := response.bind (fun r => r.detail)
    let status := response.bind (fun r => r.status)
    match detail with
    | some (.strDetail s) => s
    | some (.listDetail items) =>
      match items.head? with
      | some (some m) => m
      | _ => statusMessage status
    | none => statusMessage status

/-- Statement of the amended C10 claim in its own words, for comparison with
the embedded `getApiErrorMessage`: null / non-object inputs get the generic
fallback; a string detail is returned verbatim; the first element's msg is
used when detail is a non-empty list whose first element carries a string
msg; otherwise status 429 and statuses of at least 500 map to fixed messages
and everything else gets the fallback. -/
def apiErrorMessageClaim (e : ApiErrorInput) : String :=
  match e with
  | .nonObject => fallbackMessage
  | .obj none => fallbackMessage
  | .obj (some r) =>
    match r.detail with
    | some (.strDetail s) => s
    | some (.listDetail (some m :: _)) => m
    | _ => statusMessage r.status

/-- Whether the payloads the extractor returns verbatim (a string detail, or
the first validation msg) are non-empty; inputs without such a payload count
as true. -/
def verbatimPayloadsNonEmpty (e : ApiErrorInput) : Bool :=
  match e with
  | .obj (some r) =>
    match r.detail with
    | some (.strDetail s) => s != ""
    | some (.listDetail (some m :: _)) => m != ""
    | _ => true
  | _ => true

/-! ## Concrete fixtures

A five-tenant hierarchy (federal root, two states, two districts under the
first state) and a pending demo event, used by the witness theorems. -/

/-- Federal root, states S1 (id 2) and S2 (id 5), districts D1 (id 3) and
D2 (id 4) under S1. -/
def demoTenants : List Tenant :=
  [⟨1, "bund", .bundesverband, none, true⟩,
   ⟨2, "s1", .landesverband, some 1, true⟩,
   ⟨3, "d1", .bezirksverband, some 2, true⟩,
   ⟨4, "d2", .bezirksverband, some 2, true⟩,
   ⟨5, "s2", .landesverband, some 1, true⟩]

/-- A federal admin actor. -/
def demoAdmin : Actor := ⟨10, .admin, some 1⟩

/-- A pending event owned by district D1, submitted by user 42. -/
def demoEvent : Event := submit 7 42 3 "Sommerfest"

/-- An already-rejected second event used by the bulk witness. -/
def demoRejected : Event :=
  { demoEvent with id := 8, status := .rejected, rejection_reason := "dup" }

/-! ## C6 — canSeeAll -/

/-- C6: for every (nullable) tenant value, the `canSeeAllTenants` context
value of `useTenant` is true if and only if the tenant's level is federal
(`'bundesverband'`) or the tenant is nil. -/
theorem canSeeAllTenantsCtx_iff (ct : Option TenantPublic) :
    canSeeAllTenantsCtx ct = true ↔
      (ct = none ∨ ∃ t, ct = some t ∧ t.level = TenantLevel.bundesverband) := by
  cases ct with
  | none => simp [canSeeAllTenantsCtx]
  | some t =>
    cases h : t.level <;>
      simp [canSeeAllTenantsCtx, canSeeAllTenants, h]

/-! ## C8 — tenant-context round-trip (corrected) -/

/-- C8 counterexample: the empty string is a non-null slug, but
`setTenantContext('')` takes the falsy branch and deletes the header, so the
following `getTenantContext()` returns null rather than the slug. -/
theorem tenantContext_roundtrip_cex :
    getTenantContext (setTenantContext (some "") (some "x")) ≠ some "" := by
  decide

/-- C8 (amended): for every non-EMPTY slug string, setting the tenant
context and then reading it returns that slug; setting null, or clearing,
makes the subsequent read return null. -/
theorem tenantContext_roundtrip (s : String) (h : s ≠ "") (st₁ st₂ st₃ : Option String) :
    getTenantContext (setTenantContext (some s) st₁) = some s ∧
    getTenantContext (setTenantContext none st₂) = none ∧
    getTenantContext (clearTenantContext st₃) = none := by
  refine ⟨?_, rfl, rfl⟩
  simp [setTenantContext, getTenantContext, h]

/-- Witness for C8: the round-trip at the concrete slug "bayern". -/
theorem tenantContext_roundtrip_witness :
    "bayern" ≠ "" ∧
    (getTenantContext (setTenantContext (some "bayern") none) = some "bayern" ∧
     getTenantContext (setTenantContext none none) = none ∧
     getTenantContext (clearTenantContext none) = none) :=
  ⟨by decide, tenantContext_roundtrip "bayern" (by decide) none none none⟩

/-! ## C2 — approve transition -/

/-- C2: approve requires visibility; an unauthorized caller gets Forbidden.
For an authorized caller, a pending event transitions to approved with
approver and timestamp filled, re-approving an approved event is a no-op
success, approving a rejected event is `InvalidTransition`; hence approve
succeeds only from `pending` or (idempotently) `approved`. -/
theorem approve_transition (ts : List Tenant) (actor : Actor) (now : Nat) (e : Event) :
    ((canAct ts actor e.tenant Action.approve).allowed = false →
      approve ts actor now e = .error .Forbidden) ∧
    ((canAct ts actor e.tenant Action.approve).allowed = true →
      e.status = EventStatus.pending →
      approve ts actor now e =
        .ok { e with status := .approved, approved_by := some actor.id,
                     approved_at := some now }) ∧
    ((canAct ts actor e.tenant Action.approve).allowed = true →
      e.status = EventStatus.approved → approve ts actor now e = .ok e) ∧
    ((canAct ts actor e.tenant Action.approve).allowed = true →
      e.status = EventStatus.rejected →
      approve ts actor now e = .error (.InvalidTransition .rejected)) ∧
    ((approve ts actor now e).isOk = true →
      (canAct ts actor e.tenant Action.approve).allowed = true ∧
      (e.status = EventStatus.pending ∨ e.status = EventStatus.approved)) := by
  refine ⟨?_, ?_, ?_, ?_, ?_⟩
  · intro h; simp [approve, h]
  · intro h hs; simp [approve, h, hs]
  · intro h hs; simp [approve, h, hs]
  · intro h hs; simp [approve, h, hs]
  · intro hok
    by_cases h : (canAct ts actor e.tenant Action.approve).allowed
    · refine ⟨h, ?_⟩
      cases hs : e.status
      · exact Or.inl rfl
      · exact Or.inr rfl
      · simp [approve, h, hs, Except.isOk, Except.toBool] at hok
    · simp [approve, h, Except.isOk, Except.toBool] at hok

/-- Witness for C2 at the demo fixture: the federal admin approving the
pending demo event. -/
theorem approve_transition_witness :
    ((canAct demoTenants demoAdmin demoEvent.tenant Action.approve).allowed = false →
      approve demoTenants demoAdmin 5 demoEvent = .error .Forbidden) ∧
    ((canAct demoTenants demoAdmin demoEvent.tenant Action.approve).allowed = true →
      demoEvent.status = EventStatus.pending →
      approve demoTenants demoAdmin 5 demoEvent =
        .ok { demoEvent with status := .approved, approved_by := some demoAdmin.id,
                             approved_at := some 5 }) ∧
    ((canAct demoTenants demoAdmin demoEvent.tenant Action.approve).allowed = true →
      demoEvent.status = EventStatus.approved →
      approve demoTenants demoAdmin 5 demoEvent = .ok demoEvent) ∧
    ((canAct demoTenants demoAdmin demoEvent.tenant Action.approve).allowed = true →
      demoEvent.status = EventStatus.rejected →
      approve demoTenants demoAdmin 5 demoEvent = .error (.InvalidTransition .rejected)) ∧
    ((approve demoTenants demoAdmin 5 demoEvent).isOk = true →
      (canAct demoTenants demoAdmin demoEvent.tenant Action.approve).allowed = true ∧
      (demoEvent.status = EventStatus.pending ∨ demoEvent.status = EventStatus.approved)) :=
  approve_transition demoTenants demoAdmin 5 demoEvent

/-! ## C3 — reject transition -/

/-- C3: a reason that is empty after trimming yields `ValidationError`
before anything is touched (no event is produced); for an authorized caller
with a non-blank reason, a pending event transitions to rejected with the
reason stored and approver/timestamp cleared, any other status is
`InvalidTransition`; hence reject succeeds only from `pending` with a
non-blank reason. -/
theorem reject_transition (ts : List Tenant) (actor : Actor) (e : Event) (reason : String) :
    (strTrim reason = "" → reject ts actor e reason = .error .ValidationError) ∧
    (strTrim reason ≠ "" →
      (canAct ts actor e.tenant Action.reject).allowed = true →
      e.status = EventStatus.pending →
      reject ts actor e reason =
        .ok { e with status := .rejected, rejection_reason := reason,
                     approved_by := none, approved_at := none }) ∧
    (strTrim reason ≠ "" →
      (canAct ts actor e.tenant Action.reject).allowed = true →
      e.status ≠ EventStatus.pending →
      reject ts actor e reason = .error (.InvalidTransition e.status)) ∧
    ((reject ts actor e reason).isOk = true →
      e.status = EventStatus.pending ∧ strTrim reason ≠ "") := by
  refine ⟨?_, ?_, ?_, ?_⟩
  · intro h; simp [reject, h]
  · intro h hallow hs; simp [reject, h, hallow, hs]
  · intro h hallow hs
    cases hs' : e.status
    · exact absurd hs' hs
    · simp [reject, h, hallow, hs']
    · simp [reject, h, hallow, hs']
  · intro hok
    by_cases h : strTrim reason = ""
    · simp [reject, h, Except.isOk, Except.toBool] at hok
    · refine ⟨?_, h⟩
      by_cases hallow : (canAct ts actor e.tenant Action.reject).allowed
      · cases hs : e.status
        · rfl
        · simp [reject, h, hallow, hs, Except.isOk, Except.toBool] at hok
        · simp [reject, h, hallow, hs, Except.isOk, Except.toBool] at hok
      · simp [reject, h, hallow, Except.isOk, Except.toBool] at hok

/-- Witness for C3 at the demo fixture: the federal admin rejecting the
pending demo event with reason "duplicate". -/
theorem reject_transition_witness :
    (strTrim "duplicate" = "" →
      reject demoTenants demoAdmin demoEvent "duplicate" = .error .ValidationError) ∧
    (strTrim "duplicate" ≠ "" →
      (canAct demoTenants demoAdmin demoEvent.tenant Action.reject).allowed = true →
      demoEvent.status = EventStatus.pending →
      reject demoTenants demoAdmin demoEvent "duplicate" =
        .ok { demoEvent with status := .rejected, rejection_reason := "duplicate",
                             approved_by := none, approved_at := none }) ∧
    (strTrim "duplicate" ≠ "" →
      (canAct demoTenants demoAdmin demoEvent.tenant Action.reject).allowed = true →
      demoEvent.status ≠ EventStatus.pending →
      reject demoTenants demoAdmin demoEvent "duplicate" =
        .error (.InvalidTransition demoEvent.status)) ∧
    ((reject demoTenants demoAdmin demoEvent "duplicate").isOk = true →
      demoEvent.status = EventStatus.pending ∧ strTrim "duplicate" ≠ "") :=
  reject_transition demoTenants demoAdmin demoEvent "duplicate"

/-! ## C7 — concurrent approve/reject race -/

/-- C7: for a pending event and two racing transitions resolved by the
atomic compare-and-set, the first applied call succeeds, the second observes
`InvalidTransition`, and the stored row is exactly the winner's full update
(never half-applied, never silently overwritten); quantifying over both
transitions covers both interleavings. -/
theorem cas_race (t₁ t₂ : Transition) (e : Event) (h : e.status = EventStatus.pending) :
    (casStep t₁ e).2 = .ok () ∧
    (casStep t₂ (casStep t₁ e).1).2 =
      .error (.InvalidTransition (applyTransition t₁ e).status) ∧
    (casStep t₂ (casStep t₁ e).1).1 = applyTransition t₁ e ∧
    (applyTransition t₁ e).status ≠ EventStatus.pending := by
  have hs : (applyTransition t₁ e).status ≠ EventStatus.pending := by
    cases t₁ <;> simp [applyTransition]
  have h₁ : casStep t₁ e = (applyTransition t₁ e, .ok ()) := by
    simp [casStep, h]
  refine ⟨by rw [h₁], ?_, ?_, hs⟩ <;> rw [h₁] <;> simp [casStep, hs]

/-- Witness for C7: an approve and a reject racing on the pending demo
event. -/
theorem cas_race_witness :
    demoEvent.status = EventStatus.pending ∧
    ((casStep (.tapprove 10 5) demoEvent).2 = .ok () ∧
     (casStep (.treject "dup") (casStep (.tapprove 10 5) demoEvent).1).2 =
       .error (.InvalidTransition (applyTransition (.tapprove 10 5) demoEvent).status) ∧
     (casStep (.treject "dup") (casStep (.tapprove 10 5) demoEvent).1).1 =
       applyTransition (.tapprove 10 5) demoEvent ∧
     (applyTransition (.tapprove 10 5) demoEvent).status ≠ EventStatus.pending) :=
  ⟨by decide, cas_race (.tapprove 10 5) (.treject "dup") demoEvent (by decide)⟩

/-! ## C1 — event record invariant preserved by the workflow -/

/-- C1: the event invariant — rejection reason non-empty iff rejected,
approver/timestamp set iff approved — holds of a freshly submitted event
(whose owning tenant is the submitter's home tenant) and is preserved, along
with the owning tenant, by every workflow operation: approve, reject and
edit preserve it on their produced event, and delete only removes events
from the store. -/
theorem workflow_preserves_invariant
    (ts : List Tenant) (actor : Actor) (now : Nat) (e : Event) (reason : String)
    (c : EventChanges) (eid sid home : Nat) (title : String)
    (e₁ e₂ e₃ : Event) (st st' : List Event) (i : Nat) (x : Event)
    (hinv : eventInvariant e) :
    (eventInvariant (submit eid sid home title) ∧ (submit eid sid home title).tenant = home) ∧
    (approve ts actor now e = .ok e₁ → eventInvariant e₁ ∧ e₁.tenant = e.tenant) ∧
    (reject ts actor e reason = .ok e₂ → eventInvariant e₂ ∧ e₂.tenant = e.tenant) ∧
    (editEvent ts actor e c = .ok e₃ → eventInvariant e₃ ∧ e₃.tenant = e.tenant) ∧
    (deleteEvent ts actor st i = .ok st' → x ∈ st' → x ∈ st) := by
  obtain ⟨hrej, happ⟩ := hinv
  refine ⟨⟨⟨by simp [submit], by simp [submit]⟩, rfl⟩, ?_, ?_, ?_, ?_⟩
  · intro h
    by_cases hallow : (canAct ts actor e.tenant Action.approve).allowed
    · cases hs : e.status
      · simp [approve, hallow, hs] at h
        have hr : e.rejection_reason = "" := by
          by_contra hne
          have := hrej.mpr hne
          rw [hs] at this
          exact EventStatus.noConfusion this
        subst h
        exact ⟨⟨by simp [hr], by simp⟩, rfl⟩
      · simp [approve, hallow, hs] at h
        subst h
        exact ⟨⟨hrej, happ⟩, rfl⟩
      · simp [approve, hallow, hs] at h
    · simp [approve, hallow] at h
  · intro h
    by_cases hv : strTrim reason = ""
    · simp [reject, hv] at h
    · by_cases hallow : (canAct ts actor e.tenant Action.reject).allowed
      · cases hs : e.status
        · simp [reject, hv, hallow, hs] at h
          subst h
          have hr : reason ≠ "" := by
            intro he
            exact hv (by rw [he]; decide)
          exact ⟨⟨by simp [hr], by simp⟩, rfl⟩
        · simp [reject, hv, hallow, hs] at h
        · simp [reject, hv, hallow, hs] at h
      · simp [reject, hv, hallow] at h
  · intro h
    cases hs : e.status
    · by_cases hown : (actor.id == e.submitter_id || (canAct ts actor e.tenant Action.edit).allowed) = true
      · simp [editEvent, hs, hown] at h
        subst h
        refine ⟨⟨?_, ?_⟩, rfl⟩
        · simpa [hs] using hrej
        · simpa [hs] using happ
      · simp [editEvent, hs, hown] at h
    · simp [editEvent, hs] at h
    · simp [editEvent, hs] at h
  · intro h hx
    cases hf : st.find? (fun ev => ev.id == i) with
    | none => simp [deleteEvent, hf] at h
    | some ev =>
      by_cases hown : (actor.id == ev.submitter_id || (canAct ts actor ev.tenant Action.delete).allowed) = true
      · simp [deleteEvent, hf, hown] at h
        subst h
        exact List.mem_of_mem_filter hx
      · simp [deleteEvent, hf, hown] at h

/-- Witness for C1 at the demo fixture: the pending demo event satisfies the
invariant, and the conclusion is instantiated at the admin's approve, a
reject with reason "duplicate", a title edit, and a delete from the
single-event store. -/
theorem workflow_preserves_invariant_witness :
    eventInvariant demoEvent ∧
    ((eventInvariant (submit 8 42 3 "Fest") ∧ (submit 8 42 3 "Fest").tenant = 3) ∧
     (approve demoTenants demoAdmin 5 demoEvent = .ok (setApproved 10 5 demoEvent) →
       eventInvariant (setApproved 10 5 demoEvent) ∧
       (setApproved 10 5 demoEvent).tenant = demoEvent.tenant) ∧
     (reject demoTenants demoAdmin demoEvent "duplicate" =
         .ok { demoEvent with status := .rejected, rejection_reason := "duplicate",
                              approved_by := none, approved_at := none } →
       eventInvariant { demoEvent with status := .rejected, rejection_reason := "duplicate",
                                       approved_by := none, approved_at := none } ∧
       ({ demoEvent with status := EventStatus.rejected, rejection_reason := "duplicate",
                         approved_by := none, approved_at := none } : Event).tenant =
         demoEvent.tenant) ∧
     (editEvent demoTenants demoAdmin demoEvent ⟨some "Neu"⟩ =
         .ok { demoEvent with title := "Neu" } →
       eventInvariant { demoEvent with title := "Neu" } ∧
       ({ demoEvent with title := "Neu" } : Event).tenant = demoEvent.tenant) ∧
     (deleteEvent demoTenants demoAdmin [demoEvent] 7 = .ok [] →
       demoEvent ∈ ([] : List Event) → demoEvent ∈ [demoEvent])) :=
  ⟨by decide,
   workflow_preserves_invariant demoTenants demoAdmin 5 demoEvent "duplicate"
     ⟨some "Neu"⟩ 8 42 3 "Fest" (setApproved 10 5 demoEvent)
     { demoEvent with status := .rejected, rejection_reason := "duplicate",
                      approved_by := none, approved_at := none }
     { demoEvent with title := "Neu" } [demoEvent] [] 7 demoEvent (by decide)⟩

/-! ## C5 — visibility across the three-level hierarchy -/

/-- C5: in a well-formed three-level hierarchy (federal root `f`, state `s`
with parent `f`, districts `d` and `d'` both with parent `s`), for every
workflow action `w`, an actor of any role homed at district `d` is denied
`w` on the sibling district `d'`; an actor homed at state `s` is allowed
`w` on its district child `d`; and an admin homed at the federal tenant `f`
is allowed every action on every tenant. -/
theorem visibility_three_levels
    (ts : List Tenant) (i j : Nat) (r r' : Role) (target : Nat) (a w : Action)
    (f s d d' : Nat) (tf tsl td td' : Tenant)
    (hw : w.isWorkflow = true)
    (hf : findTenant ts f = some tf) (hfl : tf.level = TenantLevel.bundesverband)
    (hs : findTenant ts s = some tsl) (hsl : tsl.level = TenantLevel.landesverband)
    (hsp : tsl.parent_id = some f)
    (hd : findTenant ts d = some td) (hdl : td.level = TenantLevel.bezirksverband)
    (hdp : td.parent_id = some s)
    (hd' : findTenant ts d' = some td') (hd'l : td'.level = TenantLevel.bezirksverband)
    (hd'p : td'.parent_id = some s)
    (hdd : d ≠ d') :
    (canAct ts ⟨i, r, some d⟩ d' w).allowed = false ∧
    (canAct ts ⟨j, r', some s⟩ d w).allowed = true ∧
    canAct ts ⟨j, Role.admin, some f⟩ target a = Decision.Allow := by
  have hsd : s ≠ d := by
    intro h
    rw [h, hd] at hs
    cases hs
    rw [hdl] at hsl
    exact TenantLevel.noConfusion hsl
  have hfd : f ≠ d := by
    intro h
    rw [h, hd] at hf
    cases hf
    rw [hdl] at hfl
    exact TenantLevel.noConfusion hfl
  have hsl' : canSeeAllTenants td.level = false := by rw [hdl]; rfl
  have hnotdesc : isDescendantOf ts d' d = false := by
    simp only [isDescendantOf, isDescendantOfGo, hd', hd'p, hs, hsp, hf]
    cases hp : tf.parent_id <;>
      simp [hdd, hsd, hfd, Ne.symm hdd, beq_iff_eq]
  refine ⟨?_, ?_, ?_⟩
  · have hhome : canSeeAllHome ts (some d) = false := by
      simp [canSeeAllHome, hd, hsl']
    simp [canAct, hhome, Ne.symm hdd, hnotdesc, Decision.allowed, beq_iff_eq]
  · have hssl : canSeeAllTenants tsl.level = false := by rw [hsl]; rfl
    have hhome2 : canSeeAllHome ts (some s) = false := by
      simp [canSeeAllHome, hs, hssl]
    have hdesc : isDescendantOf ts d s = true := by
      simp [isDescendantOf, isDescendantOfGo, hd, hdp, beq_iff_eq]
    simp [canAct, hhome2, Ne.symm hsd, hdesc, Decision.allowed, hw, beq_iff_eq]
  · have hhome3 : canSeeAllHome ts (some f) = true := by
      simp [canSeeAllHome, hf, hfl, canSeeAllTenants]
    simp [canAct, hhome3]

/-- Witness for C5 at the concrete demo hierarchy: districts D1 (3) and D2
(4) under state S1 (2), federal root 1; the workflow action is approve — an
editor homed at D1 versus D2, an editor homed at S1 versus D1, and the
federal admin managing users on tenant 5. -/
theorem visibility_three_levels_witness :
    Action.approve.isWorkflow = true ∧
    ((canAct demoTenants ⟨20, Role.editor, some 3⟩ 4 Action.approve).allowed = false ∧
     (canAct demoTenants ⟨21, Role.editor, some 2⟩ 3 Action.approve).allowed = true ∧
     canAct demoTenants ⟨21, Role.admin, some 1⟩ 5 Action.manageUsers = Decision.Allow) :=
  ⟨by decide,
   visibility_three_levels demoTenants 20 21 Role.editor Role.editor 5
     Action.manageUsers Action.approve 1 2 3 4
     ⟨1, "bund", .bundesverband, none, true⟩
     ⟨2, "s1", .landesverband, some 1, true⟩
     ⟨3, "d1", .bezirksverband, some 2, true⟩
     ⟨4, "d2", .bezirksverband, some 2, true⟩
     (by decide) (by decide) (by decide) (by decide) (by decide) (by decide)
     (by decide) (by decide) (by decide) (by decide) (by decide) (by decide)
     (by decide)⟩

/-! ## C4 — bulk approve: counting and per-item isolation -/

/-- One bulk step succeeds exactly on a found, in-scope, still-pending id. -/
theorem approveOneCas_snd (ts : List Tenant) (actor : Actor) (now : Nat)
    (st : List Event) (i : Nat) :
    (approveOneCas ts actor now st i).2 = validPendingInScope ts actor st i := by
  by_cases h : validPendingInScope ts actor st i <;> simp [approveOneCas, h]

/-- A failing bulk step leaves the store untouched. -/
theorem approveOneCas_fst_of_invalid (ts : List Tenant) (actor : Actor) (now : Nat)
    (st : List Event) (i : Nat) (h : validPendingInScope ts actor st i = false) :
    (approveOneCas ts actor now st i).1 = st := by
  simp [approveOneCas, h]

/-- Updating the row keyed `i` does not change the lookup of a different
key `j`. -/
theorem find?_map_update (st : List Event) (aid now i j : Nat) (hij : j ≠ i) :
    (st.map (fun x => if x.id == i then setApproved aid now x else x)).find?
        (fun e => e.id == j) =
      st.find? (fun e => e.id == j) := by
  induction st with
  | nil => rfl
  | cons x xs ih =>
    simp only [List.map_cons]
    by_cases hx : x.id = i
    · have h₁ : (x.id == i) = true := by simp [hx]
      have h₂ : ((setApproved aid now x).id == j) = false := by
        simp [setApproved, hx, Ne.symm hij]
      have h₃ : (x.id == j) = false := by simp [hx, Ne.symm hij]
      rw [if_pos h₁]
      simp only [List.find?, h₂, h₃]
      exact ih
    · have h₁ : ¬((x.id == i) = true) := by simp [hx]
      rw [if_neg h₁]
      by_cases hj : x.id = j
      · have h₂ : (x.id == j) = true := by simp [hj]
        simp only [List.find?, h₂]
      · have h₂ : (x.id == j) = false := by simp [hj]
        simp only [List.find?, h₂]
        exact ih

/-- A bulk step on id `i` does not change the lookup of a different id. -/
theorem find?_approveOneCas_ne (ts : List Tenant) (actor : Actor) (now : Nat)
    (st : List Event) (i j : Nat) (hij : j ≠ i) :
    ((approveOneCas ts actor now st i).1).find? (fun e => e.id == j) =
      st.find? (fun e => e.id == j) := by
  by_cases h : validPendingInScope ts actor st i
  · simp only [approveOneCas, h, if_true]
    exact find?_map_update st actor.id now i j hij
  · simp [approveOneCas, h]

/-- A bulk step on id `i` does not change the success predicate of a
different id. -/
theorem validPending_approveOneCas_ne (ts : List Tenant) (actor : Actor) (now : Nat)
    (st : List Event) (i j : Nat) (hij : j ≠ i) :
    validPendingInScope ts actor (approveOneCas ts actor now st i).1 j =
      validPendingInScope ts actor st j := by
  unfold validPendingInScope
  rw [find?_approveOneCas_ne ts actor now st i j hij]

/-- Processing a list of ids not containing `j` does not change the lookup
of `j`. -/
theorem find?_bulkApproveGo_notMem (ts : List Tenant) (actor : Actor) (now : Nat)
    (ids : List Nat) (st : List Event) (j : Nat) (hj : j ∉ ids) :
    ((bulkApproveGo ts actor now st ids).1).find? (fun e => e.id == j) =
      st.find? (fun e => e.id == j) := by
  induction ids generalizing st with
  | nil => rfl
  | cons i rest ih =>
    have hji : j ≠ i := fun h => hj (h ▸ List.mem_cons_self i rest)
    have hjr : j ∉ rest := fun h => hj (List.mem_cons_of_mem i h)
    calc ((bulkApproveGo ts actor now ((approveOneCas ts actor now st i).1) rest).1).find?
            (fun e => e.id == j)
        = ((approveOneCas ts actor now st i).1).find? (fun e => e.id == j) :=
          ih _ hjr
      _ = st.find? (fun e => e.id == j) :=
          find?_approveOneCas_ne ts actor now st i j hji

/-- On duplicate-free ids, the bulk fold counts exactly the ids that were
valid, in scope and pending against the initial store. -/
theorem bulkApproveGo_count (ts : List Tenant) (actor : Actor) (now : Nat)
    (ids : List Nat) (st : List Event) (h : ids.Nodup) :
    (bulkApproveGo ts actor now st ids).2 =
      (ids.filter (fun i => validPendingInScope ts actor st i)).length := by
  induction ids generalizing st with
  | nil => rfl
  | cons i rest ih =>
    rw [List.nodup_cons] at h
    obtain ⟨hi, hrest⟩ := h
    have hcong :
        rest.filter (fun x => validPendingInScope ts actor (approveOneCas ts actor now st i).1 x) =
          rest.filter (fun x => validPendingInScope ts actor st x) := by
      apply List.filter_congr
      intro x hx
      exact validPending_approveOneCas_ne ts actor now st i x (fun hxi => hi (hxi ▸ hx))
    have hgo :
        (bulkApproveGo ts actor now st (i :: rest)).2 =
          (if validPendingInScope ts actor st i then 1 else 0) +
            (bulkApproveGo ts actor now (approveOneCas ts actor now st i).1 rest).2 := by
      simp [bulkApproveGo, approveOneCas_snd]
    rw [hgo, ih _ hrest, hcong, List.filter_cons]
    by_cases hv : validPendingInScope ts actor st i <;> simp [hv, Nat.add_comm]

/-- C4: on a duplicate-free list of N ids of which exactly k resolve to an
in-scope pending event, bulkApprove reports `{approved := k, total := N}`
(k being the number of ids passing the validity predicate against the
initial store), each id is processed independently through its own
compare-and-set, and every failing id's stored row is unchanged. -/
theorem bulkApprove_count (ts : List Tenant) (actor : Actor) (now : Nat)
    (st : List Event) (ids : List Nat) (j : Nat) (h : ids.Nodup) :
    (bulkApprove ts actor now st ids).2.total = ids.length ∧
    (bulkApprove ts actor now st ids).2.approved =
      (ids.filter (fun i => validPendingInScope ts actor st i)).length ∧
    (j ∈ ids → validPendingInScope ts actor st j = false →
      ((bulkApprove ts actor now st ids).1).find? (fun e => e.id == j) =
        st.find? (fun e => e.id == j)) := by
  refine ⟨rfl, bulkApproveGo_count ts actor now ids st h, ?_⟩
  intro hj hvj
  show ((bulkApproveGo ts actor now st ids).1).find? (fun e => e.id == j) =
    st.find? (fun e => e.id == j)
  induction ids generalizing st with
  | nil => rfl
  | cons i rest ih =>
    rw [List.nodup_cons] at h
    obtain ⟨hi, hrest⟩ := h
    rcases List.mem_cons.mp hj with hji | hjr
    · subst hji
      have hfst : (approveOneCas ts actor now st j).1 = st :=
        approveOneCas_fst_of_invalid ts actor now st j hvj
      show ((bulkApproveGo ts actor now (approveOneCas ts actor now st j).1 rest).1).find?
          (fun e => e.id == j) = st.find? (fun e => e.id == j)
      rw [hfst]
      exact find?_bulkApproveGo_notMem ts actor now rest st j hi
    · have hji : j ≠ i := fun hx => hi (hx ▸ hjr)
      have hv' : validPendingInScope ts actor (approveOneCas ts actor now st i).1 j = false := by
        rw [validPending_approveOneCas_ne ts actor now st i j hji]
        exact hvj
      show ((bulkApproveGo ts actor now (approveOneCas ts actor now st i).1 rest).1).find?
          (fun e => e.id == j) = st.find? (fun e => e.id == j)
      calc ((bulkApproveGo ts actor now (approveOneCas ts actor now st i).1 rest).1).find?
              (fun e => e.id == j)
          = ((approveOneCas ts actor now st i).1).find? (fun e => e.id == j) :=
            ih (approveOneCas ts actor now st i).1 hrest hjr hv'
        _ = st.find? (fun e => e.id == j) :=
            find?_approveOneCas_ne ts actor now st i j hji

/-- Witness for C4: ids `[7, 8, 9]` against a store holding the pending
demo event (7) and a rejected event (8); only id 7 is valid, so the result
is `{approved := 1, total := 3}` and the failing id 8 is untouched. -/
theorem bulkApprove_count_witness :
    ([7, 8, 9] : List Nat).Nodup ∧
    ((bulkApprove demoTenants demoAdmin 5 [demoEvent, demoRejected] [7, 8, 9]).2.total =
       ([7, 8, 9] : List Nat).length ∧
     (bulkApprove demoTenants demoAdmin 5 [demoEvent, demoRejected] [7, 8, 9]).2.approved =
       (([7, 8, 9] : List Nat).filter
         (fun i => validPendingInScope demoTenants demoAdmin [demoEvent, demoRejected] i)).length ∧
     (8 ∈ ([7, 8, 9] : List Nat) →
       validPendingInScope demoTenants demoAdmin [demoEvent, demoRejected] 8 = false →
       ((bulkApprove demoTenants demoAdmin 5 [demoEvent, demoRejected] [7, 8, 9]).1).find?
           (fun e => e.id == 8) =
         ([demoEvent, demoRejected] : List Event).find? (fun e => e.id == 8))) :=
  ⟨by decide,
   bulkApprove_count demoTenants demoAdmin 5 [demoEvent, demoRejected] [7, 8, 9] 8
     (by decide)⟩

/-! ## C9 — generateSlug output shape -/

/-- A character in `[a-z0-9]` is not a hyphen. -/
theorem isLowerAlnum_ne_hyphen (c : Char) (h : isLowerAlnum c = true) : c ≠ '-' := by
  intro hc
  subst hc
  exact absurd h (by decide)

/-- Every character the run-collapsing pass emits is in `[a-z0-9]` or a
hyphen. -/
theorem mem_squashGo (l : List Char) : ∀ (b : Bool) (c : Char),
    c ∈ squashGo b l → isLowerAlnum c = true ∨ c = '-' := by
  induction l with
  | nil => intro b c hc; simp [squashGo] at hc
  | cons a l ih =>
    intro b c hc
    simp only [squashGo] at hc
    by_cases ha : isLowerAlnum a
    · rw [if_pos ha] at hc
      rcases List.mem_cons.mp hc with h | h
      · exact Or.inl (h ▸ ha)
      · exact ih false c h
    · rw [if_neg ha] at hc
      cases b with
      | true => exact ih true c hc
      | false =>
        rcases List.mem_cons.mp hc with h | h
        · exact Or.inr h
        · exact ih true c h

/-- Inside a collapsed run the next emitted character is never a hyphen. -/
theorem head?_squashGo_true (l : List Char) : (squashGo true l).head? ≠ some '-' := by
  induction l with
  | nil => simp [squashGo]
  | cons a l ih =>
    simp only [squashGo]
    by_cases ha : isLowerAlnum a
    · rw [if_pos ha]
      intro h
      rw [List.head?_cons] at h
      exact isLowerAlnum_ne_hyphen a ha (Option.some.inj h)
    · rw [if_neg ha]
      simpa using ih

/-- Building block: a hyphen constraint on the head plus the tail property
give the no-double-hyphen property of the cons. -/
theorem noDouble_cons_of (a : Char) (l : List Char)
    (h₁ : a = '-' → l.head? ≠ some '-') (h₂ : noDoubleHyphen l = true) :
    noDoubleHyphen (a :: l) = true := by
  cases l with
  | nil => simp [noDoubleHyphen]
  | cons b m =>
    simp only [noDoubleHyphen, Bool.and_eq_true, Bool.not_eq_true']
    refine ⟨?_, h₂⟩
    by_cases hab : a = '-'
    · have hb : b ≠ '-' := fun hb => h₁ hab (by rw [List.head?_cons, hb])
      simp [hb]
    · simp [hab]

/-- The no-double-hyphen property passes to the tail. -/
theorem noDouble_tail (a : Char) (l : List Char)
    (h : noDoubleHyphen (a :: l) = true) : noDoubleHyphen l = true := by
  cases l with
  | nil => rfl
  | cons b m =>
    simp only [noDoubleHyphen, Bool.and_eq_true] at h
    exact h.2

/-- In a no-double-hyphen list a leading hyphen is not followed by one. -/
theorem noDouble_cons_head (a : Char) (l : List Char)
    (h : noDoubleHyphen (a :: l) = true) (ha : a = '-') : l.head? ≠ some '-' := by
  cases l with
  | nil => simp
  | cons b m =>
    simp only [noDoubleHyphen, Bool.and_eq_true, Bool.not_eq_true'] at h
    intro hb
    rw [List.head?_cons] at hb
    have := h.1
    rw [ha, Option.some.inj hb] at this
    simp at this

/-- The run-collapsing pass never emits two adjacent hyphens. -/
theorem noDouble_squashGo (l : List Char) : ∀ b, noDoubleHyphen (squashGo b l) = true := by
  induction l with
  | nil => intro b; rfl
  | cons a l ih =>
    intro b
    simp only [squashGo]
    by_cases ha : isLowerAlnum a
    · rw [if_pos ha]
      exact noDouble_cons_of a _ (fun h => absurd h (isLowerAlnum_ne_hyphen a ha)) (ih false)
    · rw [if_neg ha]
      cases b with
      | true => exact ih true
      | false =>
        exact noDouble_cons_of '-' _ (fun _ => head?_squashGo_true l) (ih true)

/-- After dropping the leading hyphen run, the head is not a hyphen. -/
theorem head?_dropWhile_hyphen (l : List Char) (c : Char)
    (h : (l.dropWhile (fun x => x == '-')).head? = some c) : c ≠ '-' := by
  induction l with
  | nil => simp at h
  | cons a l ih =>
    rw [List.dropWhile_cons] at h
    by_cases ha : (a == '-') = true
    · rw [if_pos ha] at h
      exact ih h
    · rw [if_neg ha] at h
      rw [List.head?_cons] at h
      intro hc
      rw [Option.some.inj h, hc] at ha
      exact ha rfl

/-- Dropping a leading segment preserves the no-double-hyphen property. -/
theorem noDouble_dropWhile (p : Char → Bool) (l : List Char)
    (h : noDoubleHyphen l = true) : noDoubleHyphen (l.dropWhile p) = true := by
  induction l with
  | nil => exact h
  | cons a l ih =>
    by_cases ha : (p a) = true
    · rw [List.dropWhile_cons_of_pos ha]
      exact ih (noDouble_tail a l h)
    · rw [List.dropWhile_cons_of_neg ha]
      exact h

/-- Membership in the dropWhile output implies membership in the input. -/
theorem mem_dropWhile_imp (p : Char → Bool) (l : List Char) (c : Char)
    (h : c ∈ l.dropWhile p) : c ∈ l := by
  induction l with
  | nil => exact h
  | cons a l ih =>
    by_cases ha : (p a) = true
    · rw [List.dropWhile_cons_of_pos ha] at h
      exact List.mem_cons_of_mem a (ih h)
    · rw [List.dropWhile_cons_of_neg ha] at h
      exact h

/-- Membership in the trailing-hyphen-stripped output implies membership in
the input. -/
theorem mem_dropTrailing (l : List Char) : ∀ c, c ∈ dropTrailingHyphens l → c ∈ l := by
  induction l with
  | nil => intro c hc; exact hc
  | cons x rest ih =>
    intro c hc
    simp only [dropTrailingHyphens] at hc
    cases h : dropTrailingHyphens rest with
    | nil =>
      rw [h] at hc
      by_cases hx : x = '-'
      · rw [if_pos hx] at hc
        exact absurd hc (List.not_mem_nil c)
      · rw [if_neg hx] at hc
        rcases List.mem_cons.mp hc with h' | h'
        · exact h' ▸ List.mem_cons_self x rest
        · exact absurd h' (List.not_mem_nil c)
    | cons y ys =>
      rw [h] at hc
      rcases List.mem_cons.mp hc with h' | h'
      · exact h' ▸ List.mem_cons_self x rest
      · exact List.mem_cons_of_mem x (ih c (h ▸ h'))

/-- Stripping trailing hyphens preserves the head. -/
theorem head?_dropTrailing (l : List Char) (c : Char)
    (h : (dropTrailingHyphens l).head? = some c) : l.head? = some c := by
  cases l with
  | nil => exact h
  | cons x rest =>
    simp only [dropTrailingHyphens] at h
    cases hr : dropTrailingHyphens rest with
    | nil =>
      rw [hr] at h
      by_cases hx : x = '-'
      · rw [if_pos hx] at h
        exact absurd h (by simp)
      · rw [if_neg hx] at h
        exact h
    | cons y ys =>
      rw [hr] at h
      rw [List.head?_cons] at h ⊢
      exact h

/-- After stripping, the last character is not a hyphen. -/
theorem getLast?_dropTrailing (l : List Char) :
    (dropTrailingHyphens l).getLast? ≠ some '-' := by
  induction l with
  | nil => simp [dropTrailingHyphens]
  | cons x rest ih =>
    simp only [dropTrailingHyphens]
    cases h : dropTrailingHyphens rest with
    | nil =>
      by_cases hx : x = '-'
      · rw [if_pos hx]; simp
      · rw [if_neg hx]
        intro hc
        rw [List.getLast?_singleton] at hc
        exact hx (Option.some.inj hc)
    | cons y ys =>
      rw [List.getLast?_cons_cons]
      rw [← h]
      exact ih

/-- The stripped list is an initial segment of the input. -/
theorem dropTrailing_append (l : List Char) :
    ∃ s, l = dropTrailingHyphens l ++ s := by
  induction l with
  | nil => exact ⟨[], rfl⟩
  | cons x rest ih =>
    obtain ⟨s, hs⟩ := ih
    simp only [dropTrailingHyphens]
    cases h : dropTrailingHyphens rest with
    | nil =>
      by_cases hx : x = '-'
      · rw [if_pos hx]
        exact ⟨x :: rest, rfl⟩
      · rw [if_neg hx]
        refine ⟨s, ?_⟩
        rw [h] at hs
        simp only [List.nil_append] at hs
        rw [List.cons_append, List.nil_append, hs]
    | cons y ys =>
      refine ⟨s, ?_⟩
      rw [h] at hs
      rw [hs]
      simp

/-- The no-double-hyphen property restricts to an initial segment. -/
theorem noDouble_append_left (r : List Char) : ∀ s,
    noDoubleHyphen (r ++ s) = true → noDoubleHyphen r = true := by
  induction r with
  | nil => intro s _; rfl
  | cons a r' ih =>
    intro s h
    rw [List.cons_append] at h
    refine noDouble_cons_of a r' ?_ (ih s (noDouble_tail a _ h))
    intro ha hh
    apply noDouble_cons_head a (r' ++ s) h ha
    cases r' with
    | nil => exact absurd hh (by simp)
    | cons z zs =>
      rw [List.head?_cons] at hh
      rw [List.cons_append, List.head?_cons]
      exact hh

/-- C9: for every input name, `generateSlug` produces only lowercase ASCII
letters, digits and hyphens, with no leading hyphen, no trailing hyphen,
and no two consecutive hyphens — so a non-empty result always matches the
tenant form's slug pattern. -/
theorem generateSlug_shape (name : String) (c : Char) :
    (c ∈ (generateSlug name).data → isLowerAlnum c = true ∨ c = '-') ∧
    (generateSlug name).data.head? ≠ some '-' ∧
    (generateSlug name).data.getLast? ≠ some '-' ∧
    noDoubleHyphen (generateSlug name).data = true := by
  have hdata : (generateSlug name).data =
      dropTrailingHyphens
        ((squashRuns ((name.data.map Char.toLower).flatMap umlautExpand)).dropWhile
          (fun c => c == '-')) := rfl
  set x := squashRuns ((name.data.map Char.toLower).flatMap umlautExpand) with hx
  set y := x.dropWhile (fun c => c == '-') with hy
  refine ⟨?_, ?_, ?_, ?_⟩
  · intro hc
    rw [hdata] at hc
    exact mem_squashGo _ false c (mem_dropWhile_imp _ x c (mem_dropTrailing y c hc))
  · rw [hdata]
    intro h
    exact head?_dropWhile_hyphen x '-' (head?_dropTrailing y '-' h) rfl
  · rw [hdata]
    exact getLast?_dropTrailing y
  · rw [hdata]
    obtain ⟨s, hs⟩ := dropTrailing_append y
    apply noDouble_append_left _ s
    rw [← hs]
    exact noDouble_dropWhile _ x (noDouble_squashGo _ false)

/-- Witness for C9: the shape property instantiated at the concrete name
"JuLis Bayern!" and the character 'u'. -/
theorem generateSlug_shape_witness :
    ('u' ∈ (generateSlug "JuLis Bayern!").data →
      isLowerAlnum 'u' = true ∨ 'u' = '-') ∧
    (generateSlug "JuLis Bayern!").data.head? ≠ some '-' ∧
    (generateSlug "JuLis Bayern!").data.getLast? ≠ some '-' ∧
    noDoubleHyphen (generateSlug "JuLis Bayern!").data = true :=
  generateSlug_shape "JuLis Bayern!" 'u'

/-! ## C10 — getApiErrorMessage totality (corrected) -/

/-- C10 counterexample: a response whose `detail` is the empty string is
returned verbatim, so `getApiErrorMessage` yields the empty string — the
unconditional non-emptiness part of the claim fails. -/
theorem getApiErrorMessage_empty_cex :
    getApiErrorMessage (.obj (some ⟨some (.strDetail ""), none⟩)) = "" := rfl

/-- The status-based messages are never empty. -/
theorem statusMessage_ne_empty (st : Option Nat) : statusMessage st ≠ "" := by
  cases st with
  | none => decide
  | some s =>
    simp only [statusMessage]
    split
    · decide
    · split
      · decide
      · decide

/-- C10 (amended): `getApiErrorMessage` is a total function matching the
described case mapping — string detail verbatim, first validation msg when
the first list element carries one, 429 / >= 500 fixed messages, generic
fallback otherwise — and its result is non-empty except when the
verbatim-returned detail or msg is itself the empty string. -/
theorem getApiErrorMessage_total (e : ApiErrorInput) :
    getApiErrorMessage e = apiErrorMessageClaim e ∧
    (verbatimPayloadsNonEmpty e = true → getApiErrorMessage e ≠ "") := by
  cases e with
  | nonObject => exact ⟨rfl, fun _ => by decide⟩
  | obj response =>
    cases response with
    | none => exact ⟨rfl, fun _ => by decide⟩
    | some r =>
      obtain ⟨detail, status⟩ := r
      cases detail with
      | none => exact ⟨rfl, fun _ => statusMessage_ne_empty status⟩
      | some d =>
        cases d with
        | strDetail s =>
          refine ⟨rfl, fun h => ?_⟩
          simpa [verbatimPayloadsNonEmpty, bne_iff_ne] using h
        | listDetail items =>
          cases items with
          | nil => exact ⟨rfl, fun _ => statusMessage_ne_empty status⟩
          | cons hd tl =>
            cases hd with
            | none => exact ⟨rfl, fun _ => statusMessage_ne_empty status⟩
            | some m =>
              refine ⟨rfl, fun h => ?_⟩
              simpa [verbatimPayloadsNonEmpty, bne_iff_ne] using h

/-- Witness for C10 at a concrete input: a response with string detail
"Nicht gefunden" follows the case mapping and yields a non-empty message. -/
theorem getApiErrorMessage_total_witness :
    getApiErrorMessage (.obj (some ⟨some (.strDetail "Nicht gefunden"), none⟩)) =
      apiErrorMessageClaim (.obj (some ⟨some (.strDetail "Nicht gefunden"), none⟩)) ∧
    getApiErrorMessage (.obj (some ⟨some (.strDetail "Nicht gefunden"), none⟩)) ≠ "" :=
  ⟨(getApiErrorMessage_total (.obj (some ⟨some (.strDetail "Nicht gefunden"), none⟩))).1,
   (getApiErrorMessage_total (.obj (some ⟨some (.strDetail "Nicht gefunden"), none⟩))).2
     (by decide)⟩

end JulisKalender
